import Mathlib

/-!
Verification of the engine-orchestration core of the Fyrox repository
(`src/engine/mod.rs`): the node-body `PhysicsBinder`, the rapier handle
wrappers with their legacy-id migration, and the `Engine` update and
visit (serialization) protocols.

Rust `HashMap`s are embedded as association lists (`List (key × value)`)
with insert-replacing and erase-by-key operations; a real `HashMap` has
unique keys, which the list operations preserve when starting from the
empty list.  Mutable references handed to predicates (`&mut V`) are
embedded by state passing: the predicate returns the possibly-updated
value together with its boolean result.
-/

/-- Lookup of a key in an association list (`HashMap::get`). -/
def mapFind? {α β : Type} [DecidableEq α] (k : α) : List (α × β) → Option β
  | [] => none
  | p :: t => if p.1 = k then some p.2 else mapFind? k t

/-- Insert of a key/value pair (`HashMap::insert`): replaces the value of an
existing key in place, otherwise appends the new pair. -/
def mapInsert {α β : Type} [DecidableEq α] (k : α) (v : β) : List (α × β) → List (α × β)
  | [] => [(k, v)]
  | p :: t => if p.1 = k then (k, v) :: t else p :: mapInsert k v t

/-- Removal of a key (`HashMap::remove`): drops every pair with the key (a
`HashMap` holds at most one). -/
def mapErase {α β : Type} [DecidableEq α] (k : α) : List (α × β) → List (α × β)
  | [] => []
  | p :: t => if p.1 = k then mapErase k t else p :: mapErase k t

/-- `HashMap::retain` with a possibly value-mutating predicate: the predicate
returns the keep decision together with the (possibly updated) value; kept
entries store the updated value. -/
def mapRetain {α β : Type} (f : α → β → Bool × β) : List (α × β) → List (α × β)
  | [] => []
  | p :: t =>
    let r := f p.1 p.2
    if r.1 then (p.1, r.2) :: mapRetain f t else mapRetain f t

/-- A generational pool handle (`Handle<N>` from the core crate; not under
`src/`, modelled by its documented generational-index semantics). -/
structure Handle where
  index : Nat
  generation : Nat
deriving DecidableEq

/-- `Handle::NONE`, the explicit "none" sentinel handle. -/
def Handle.NONE : Handle := ⟨0, 0⟩

/-- A 128-bit uuid, represented by its 16 bytes (`Uuid` from the core crate;
`Uuid::from_bytes` stores the byte buffer as given). -/
structure Uuid where
  bytes : List Nat
deriving DecidableEq

/-- Rigid body handle wrapper (`define_rapier_handle!`): a transparent
wrapper around a 128-bit uuid. -/
structure RigidBodyHandle where
  id : Uuid
deriving DecidableEq

/-- Collider handle wrapper (`define_rapier_handle!`). -/
structure ColliderHandle where
  id : Uuid
deriving DecidableEq

/-- Joint handle wrapper (`define_rapier_handle!`). -/
structure JointHandle where
  id : Uuid
deriving DecidableEq

/-- `PhysicsBinder<N>`: forward map Node -> RigidBody, backward map
RigidBody -> Node, and the `enabled` flag. -/
structure PhysicsBinder where
  forward_map : List (Handle × RigidBodyHandle)
  backward_map : List (RigidBodyHandle × Handle)
  enabled : Bool
deriving DecidableEq

/-- `impl Default for PhysicsBinder`: empty maps, `enabled: true`. -/
def PhysicsBinder.default : PhysicsBinder :=
  { forward_map := []
    backward_map := []
    enabled := true }

/-- `PhysicsBinder::bind`: inserts into the forward map (returning the old
linked body) and unconditionally inserts into the backward map. -/
def PhysicsBinder.bind (s : PhysicsBinder) (node : Handle) (rigid_body : RigidBodyHandle) :
    Option RigidBodyHandle × PhysicsBinder :=
  let old_body := mapFind? node s.forward_map
  ( old_body,
    { s with
        forward_map := mapInsert node rigid_body s.forward_map
        backward_map := mapInsert rigid_body node s.backward_map } )

/-- `PhysicsBinder::unbind`: removes the node from the forward map and, if it
was bound, the corresponding body from the backward map. -/
def PhysicsBinder.unbind (s : PhysicsBinder) (node : Handle) :
    Option RigidBodyHandle × PhysicsBinder :=
  match mapFind? node s.forward_map with
  | some body_handle =>
    ( some body_handle,
      { s with
          forward_map := mapErase node s.forward_map
          backward_map := mapErase body_handle s.backward_map } )
  | none => (none, s)

/-- `PhysicsBinder::unbind_by_body`: looks the node up in the backward map,
removes it from the forward map only, and returns it (`Handle::NONE` when the
body is not bound). -/
def PhysicsBinder.unbind_by_body (s : PhysicsBinder) (body : RigidBodyHandle) :
    Handle × PhysicsBinder :=
  match mapFind? body s.backward_map with
  | some node => (node, { s with forward_map := mapErase node s.forward_map })
  | none => (Handle.NONE, s)

/-- `PhysicsBinder::body_of`. -/
def PhysicsBinder.body_of (s : PhysicsBinder) (node : Handle) : Option RigidBodyHandle :=
  mapFind? node s.forward_map

/-- `PhysicsBinder::node_of`. -/
def PhysicsBinder.node_of (s : PhysicsBinder) (body : RigidBodyHandle) : Option Handle :=
  mapFind? body s.backward_map

/-- `PhysicsBinder::clear`. -/
def PhysicsBinder.clear (s : PhysicsBinder) : PhysicsBinder :=
  { s with forward_map := [], backward_map := [] }

/-- `PhysicsBinder::retain`: the backward pass evaluates `f` on the stored
node value and a mutable *copy* of the body key (the copy, and any mutation
of it, is discarded and the kept entry is stored unchanged); the forward pass
is a plain retain with `f`, so mutations of the body value take effect there. -/
def PhysicsBinder.retain (f : Handle → RigidBodyHandle → Bool × RigidBodyHandle)
    (s : PhysicsBinder) : PhysicsBinder :=
  { s with
      backward_map :=
        mapRetain (fun node handle => ((f handle node).1, handle)) s.backward_map
      forward_map := mapRetain f s.forward_map }

theorem mapFind?_insert_self {α β : Type} [DecidableEq α] (k : α) (v : β) (l : List (α × β)) :
    mapFind? k (mapInsert k v l) = some v := by
  induction l with
  | nil => simp [mapInsert, mapFind?]
  | cons p t ih =>
    by_cases h : p.1 = k
    · simp [mapInsert, h, mapFind?]
    · simp [mapInsert, h, mapFind?, ih]

theorem mapFind?_insert_ne {α β : Type} [DecidableEq α] {k k2 : α} (v : β) (l : List (α × β))
    (h : k2 ≠ k) : mapFind? k2 (mapInsert k v l) = mapFind? k2 l := by
  have hs : ¬ (k = k2) := fun e => h e.symm
  induction l with
  | nil => simp [mapInsert, mapFind?, hs]
  | cons p t ih =>
    by_cases hp : p.1 = k
    · subst hp
      simp [mapInsert, mapFind?, hs]
    · simp only [mapInsert, hp, if_false, mapFind?]
      by_cases hq : p.1 = k2 <;> simp [hq, ih]

theorem mapFind?_erase_self {α β : Type} [DecidableEq α] (k : α) (l : List (α × β)) :
    mapFind? k (mapErase k l) = none := by
  induction l with
  | nil => simp [mapErase, mapFind?]
  | cons p t ih =>
    by_cases h : p.1 = k
    · simp [mapErase, h, ih]
    · simp [mapErase, h, mapFind?, ih]

theorem mapFind?_erase_ne {α β : Type} [DecidableEq α] {k k2 : α} (l : List (α × β))
    (h : k2 ≠ k) : mapFind? k2 (mapErase k l) = mapFind? k2 l := by
  have hs : ¬ (k = k2) := fun e => h e.symm
  induction l with
  | nil => simp [mapErase]
  | cons p t ih =>
    by_cases hp : p.1 = k
    · subst hp
      simp [mapErase, mapFind?, hs, ih]
    · simp only [mapErase, hp, if_false, mapFind?]
      by_cases hq : p.1 = k2 <;> simp [hq, ih]

theorem mem_mapInsert {α β : Type} [DecidableEq α] {p : α × β} {k : α} {v : β}
    {l : List (α × β)} (h : p ∈ mapInsert k v l) : p = (k, v) ∨ p ∈ l := by
  induction l with
  | nil => simpa [mapInsert] using h
  | cons q t ih =>
    by_cases hq : q.1 = k
    · simp only [mapInsert, hq, if_true, List.mem_cons] at h
      rcases h with h | h
      · exact Or.inl h
      · exact Or.inr (List.mem_cons_of_mem _ h)
    · simp only [mapInsert, hq, if_false, List.mem_cons] at h
      rcases h with h | h
      · exact Or.inr (h ▸ List.mem_cons_self _ _)
      · rcases ih h with h2 | h2
        · exact Or.inl h2
        · exact Or.inr (List.mem_cons_of_mem _ h2)

theorem mem_mapErase {α β : Type} [DecidableEq α] {p : α × β} {k : α} {l : List (α × β)} :
    p ∈ mapErase k l ↔ p ∈ l ∧ p.1 ≠ k := by
  induction l with
  | nil => simp [mapErase]
  | cons q t ih =>
    by_cases hq : q.1 = k
    · simp only [mapErase, hq, if_true, ih, List.mem_cons]
      constructor
      · rintro ⟨h1, h2⟩
        exact ⟨Or.inr h1, h2⟩
      · rintro ⟨h1 | h1, h2⟩
        · exact absurd (h1 ▸ hq) h2
        · exact ⟨h1, h2⟩
    · simp only [mapErase, hq, if_false, List.mem_cons, ih]
      constructor
      · rintro (h | ⟨h1, h2⟩)
        · exact ⟨Or.inl h, h ▸ hq⟩
        · exact ⟨Or.inr h1, h2⟩
      · rintro ⟨h1 | h1, h2⟩
        · exact Or.inl h1
        · exact Or.inr ⟨h1, h2⟩

theorem mapFind?_mem {α β : Type} [DecidableEq α] {k : α} {v : β} {l : List (α × β)}
    (h : mapFind? k l = some v) : (k, v) ∈ l := by
  induction l with
  | nil => simp [mapFind?] at h
  | cons p t ih =>
    by_cases hp : p.1 = k
    · simp only [mapFind?, hp, if_true, Option.some.injEq] at h
      subst h
      exact hp ▸ List.mem_cons_self _ _
    · simp only [mapFind?, hp, if_false] at h
      exact List.mem_cons_of_mem _ (ih h)

/-- C9: a freshly constructed (default) `PhysicsBinder` has both maps empty
and its `enabled` flag set to `true`, so transform synchronization is on by
default. -/
theorem physicsBinder_default_empty_enabled :
    PhysicsBinder.default.forward_map = [] ∧ PhysicsBinder.default.backward_map = []
      ∧ PhysicsBinder.default.enabled = true :=
  ⟨rfl, rfl, rfl⟩

/-- C7: `unbind_by_body b` never touches the backward map; when the backward
map binds `b` to a node, the call removes that node from the forward map
(leaving other forward entries intact) and returns the node; when `b` has no
backward entry it returns `Handle.NONE` and changes nothing. -/
theorem physicsBinder_unbind_by_body_spec (s : PhysicsBinder) (b : RigidBodyHandle) :
    (s.unbind_by_body b).2.backward_map = s.backward_map
    ∧ (∀ n, mapFind? b s.backward_map = some n →
        (s.unbind_by_body b).1 = n
        ∧ mapFind? n (s.unbind_by_body b).2.forward_map = none
        ∧ ∀ n2, n2 ≠ n →
            mapFind? n2 (s.unbind_by_body b).2.forward_map = mapFind? n2 s.forward_map)
    ∧ (mapFind? b s.backward_map = none →
        (s.unbind_by_body b).1 = Handle.NONE ∧ (s.unbind_by_body b).2 = s) := by
  cases h : mapFind? b s.backward_map with
  | none =>
    simp only [PhysicsBinder.unbind_by_body, h]
    refine ⟨trivial, ?_, fun _ => ⟨trivial, trivial⟩⟩
    intro n hn
    exact absurd hn (by simp)
  | some node =>
    simp only [PhysicsBinder.unbind_by_body, h]
    refine ⟨trivial, ?_, ?_⟩
    · intro n hn
      injection hn with hn
      subst hn
      exact ⟨rfl, mapFind?_erase_self _ _, fun n2 h2 => mapFind?_erase_ne _ h2⟩
    · intro hnone
      exact absurd hnone (by simp)

/-- Closed instance of `physicsBinder_unbind_by_body_spec` on a binder with
one binding, discharging the bound-body hypothesis at a concrete input. -/
theorem physicsBinder_unbind_by_body_spec_witness :
    (PhysicsBinder.unbind_by_body
        { forward_map := [(⟨1, 1⟩, ⟨⟨[5]⟩⟩)]
          backward_map := [(⟨⟨[5]⟩⟩, ⟨1, 1⟩)]
          enabled := true } ⟨⟨[5]⟩⟩).1 = ⟨1, 1⟩
    ∧ mapFind? (⟨1, 1⟩ : Handle)
        (PhysicsBinder.unbind_by_body
          { forward_map := [(⟨1, 1⟩, ⟨⟨[5]⟩⟩)]
            backward_map := [(⟨⟨[5]⟩⟩, ⟨1, 1⟩)]
            enabled := true } ⟨⟨[5]⟩⟩).2.forward_map = none := by
  have h := (physicsBinder_unbind_by_body_spec
    { forward_map := [(⟨1, 1⟩, ⟨⟨[5]⟩⟩)]
      backward_map := [(⟨⟨[5]⟩⟩, ⟨1, 1⟩)]
      enabled := true } ⟨⟨[5]⟩⟩).2.1 ⟨1, 1⟩ (by decide)
  exact ⟨h.1, h.2.1⟩

/-- One mutating call on a `PhysicsBinder` (for stating invariants over call
sequences). -/
inductive BinderOp where
  | bind (node : Handle) (body : RigidBodyHandle)
  | unbind (node : Handle)
  | unbindByBody (body : RigidBodyHandle)
deriving DecidableEq

/-- Apply one call, discarding its return value. -/
def applyOp (s : PhysicsBinder) : BinderOp → PhysicsBinder
  | BinderOp.bind n b => (s.bind n b).2
  | BinderOp.unbind n => (s.unbind n).2
  | BinderOp.unbindByBody b => (s.unbind_by_body b).2

/-- Run a sequence of calls from a starting state. -/
def runOps (s : PhysicsBinder) : List BinderOp → PhysicsBinder
  | [] => s
  | op :: rest => runOps (applyOp s op) rest

/-- Forward direction of the inverse invariant: every pair of the forward map
is mirrored in the backward map. -/
def forwardInverse (s : PhysicsBinder) : Prop :=
  ∀ p ∈ s.forward_map, mapFind? p.2 s.backward_map = some p.1

/-- Backward direction of the inverse invariant: every pair of the backward
map is mirrored in the forward map. -/
def backwardInverse (s : PhysicsBinder) : Prop :=
  ∀ p ∈ s.backward_map, mapFind? p.2 s.forward_map = some p.1

/-- The two maps are mutual inverses. -/
def mutualInverse (s : PhysicsBinder) : Prop :=
  forwardInverse s ∧ backwardInverse s

instance (s : PhysicsBinder) : Decidable (forwardInverse s) :=
  inferInstanceAs (Decidable (∀ p ∈ s.forward_map, mapFind? p.2 s.backward_map = some p.1))

instance (s : PhysicsBinder) : Decidable (backwardInverse s) :=
  inferInstanceAs (Decidable (∀ p ∈ s.backward_map, mapFind? p.2 s.forward_map = some p.1))

instance (s : PhysicsBinder) : Decidable (mutualInverse s) :=
  inferInstanceAs (Decidable (forwardInverse s ∧ backwardInverse s))

/-- Every `bind` in the sequence is fresh on both sides at the time of the
call: its node is not in the forward map and its body is not in the backward
map. -/
def freshBinds (s : PhysicsBinder) : List BinderOp → Bool
  | [] => true
  | BinderOp.bind n b :: rest =>
    ((mapFind? n s.forward_map).isNone && (mapFind? b s.backward_map).isNone)
      && freshBinds (applyOp s (BinderOp.bind n b)) rest
  | BinderOp.unbind n :: rest => freshBinds (applyOp s (BinderOp.unbind n)) rest
  | BinderOp.unbindByBody b :: rest => freshBinds (applyOp s (BinderOp.unbindByBody b)) rest

/-- No `bind` in the sequence hits an already-bound node (the documented
rebinding edge case never occurs). -/
def noRebind (s : PhysicsBinder) : List BinderOp → Bool
  | [] => true
  | BinderOp.bind n b :: rest =>
    (mapFind? n s.forward_map).isNone && noRebind (applyOp s (BinderOp.bind n b)) rest
  | BinderOp.unbind n :: rest => noRebind (applyOp s (BinderOp.unbind n)) rest
  | BinderOp.unbindByBody b :: rest => noRebind (applyOp s (BinderOp.unbindByBody b)) rest

/-- The sequence never calls `unbind_by_body`. -/
def noUnbindByBody : List BinderOp → Bool
  | [] => true
  | BinderOp.unbindByBody _ :: _ => false
  | BinderOp.bind _ _ :: rest => noUnbindByBody rest
  | BinderOp.unbind _ :: rest => noUnbindByBody rest

theorem forwardInverse_bind (s : PhysicsBinder) (n : Handle) (b : RigidBodyHandle)
    (hI : forwardInverse s) (hb : mapFind? b s.backward_map = none) :
    forwardInverse (s.bind n b).2 := by
  intro p hp
  simp only [PhysicsBinder.bind] at hp ⊢
  rcases mem_mapInsert hp with h | h
  · subst h
    exact mapFind?_insert_self _ _ _
  · have hf := hI p h
    by_cases he : p.2 = b
    · rw [he] at hf
      rw [hf] at hb
      exact absurd hb (by simp)
    · rw [mapFind?_insert_ne _ _ he]
      exact hf

theorem forwardInverse_unbind (s : PhysicsBinder) (n : Handle)
    (hI : forwardInverse s) : forwardInverse (s.unbind n).2 := by
  cases hf : mapFind? n s.forward_map with
  | none =>
    simpa only [PhysicsBinder.unbind, hf] using hI
  | some b =>
    intro p hp
    simp only [PhysicsBinder.unbind, hf] at hp ⊢
    have hmem := mem_mapErase.1 hp
    have hfind := hI p hmem.1
    by_cases he : p.2 = b
    · have hb := hI (n, b) (mapFind?_mem hf)
      rw [he] at hfind
      rw [hfind] at hb
      injection hb with hb
      exact absurd (hb ▸ rfl : p.1 = n) hmem.2
    · rw [mapFind?_erase_ne _ he]
      exact hfind

theorem forwardInverse_unbind_by_body (s : PhysicsBinder) (b : RigidBodyHandle)
    (hI : forwardInverse s) : forwardInverse (s.unbind_by_body b).2 := by
  cases hf : mapFind? b s.backward_map with
  | none =>
    simpa only [PhysicsBinder.unbind_by_body, hf] using hI
  | some node =>
    intro p hp
    simp only [PhysicsBinder.unbind_by_body, hf] at hp ⊢
    exact hI p (mem_mapErase.1 hp).1

theorem backwardInverse_bind (s : PhysicsBinder) (n : Handle) (b : RigidBodyHandle)
    (hI : backwardInverse s) (hn : mapFind? n s.forward_map = none) :
    backwardInverse (s.bind n b).2 := by
  intro p hp
  simp only [PhysicsBinder.bind] at hp ⊢
  rcases mem_mapInsert hp with h | h
  · subst h
    exact mapFind?_insert_self _ _ _
  · have hf := hI p h
    by_cases he : p.2 = n
    · rw [he] at hf
      rw [hf] at hn
      exact absurd hn (by simp)
    · rw [mapFind?_insert_ne _ _ he]
      exact hf

theorem backwardInverse_unbind (s : PhysicsBinder) (n : Handle)
    (hI : backwardInverse s) : backwardInverse (s.unbind n).2 := by
  cases hf : mapFind? n s.forward_map with
  | none =>
    simpa only [PhysicsBinder.unbind, hf] using hI
  | some b =>
    intro p hp
    simp only [PhysicsBinder.unbind, hf] at hp ⊢
    have hmem := mem_mapErase.1 hp
    have hfind := hI p hmem.1
    by_cases he : p.2 = n
    · rw [he] at hfind
      rw [hfind] at hf
      injection hf with hf
      exact absurd (hf ▸ rfl : p.1 = b) hmem.2
    · rw [mapFind?_erase_ne _ he]
      exact hfind

theorem freshBinds_run_forwardInverse :
    ∀ (ops : List BinderOp) (s : PhysicsBinder), freshBinds s ops = true →
      forwardInverse s → forwardInverse (runOps s ops) := by
  intro ops
  induction ops with
  | nil => exact fun s _ hI => hI
  | cons op rest ih =>
    intro s h hI
    cases op with
    | bind n b =>
      simp only [freshBinds, Bool.and_eq_true, Option.isNone_iff_eq_none] at h
      exact ih _ h.2 (forwardInverse_bind s n b hI h.1.2)
    | unbind n =>
      exact ih _ h (forwardInverse_unbind s n hI)
    | unbindByBody b =>
      exact ih _ h (forwardInverse_unbind_by_body s b hI)

theorem freshBinds_run_mutualInverse :
    ∀ (ops : List BinderOp) (s : PhysicsBinder), freshBinds s ops = true →
      noUnbindByBody ops = true → mutualInverse s → mutualInverse (runOps s ops) := by
  intro ops
  induction ops with
  | nil => exact fun s _ _ hI => hI
  | cons op rest ih =>
    intro s h hno hI
    cases op with
    | bind n b =>
      simp only [freshBinds, Bool.and_eq_true, Option.isNone_iff_eq_none] at h
      exact ih _ h.2 hno
        ⟨forwardInverse_bind s n b hI.1 h.1.2, backwardInverse_bind s n b hI.2 h.1.1⟩
    | unbind n =>
      exact ih _ h hno ⟨forwardInverse_unbind s n hI.1, backwardInverse_unbind s n hI.2⟩
    | unbindByBody b =>
      exact absurd hno (by simp [noUnbindByBody])

/-- C1 counterexample: starting from the default binder, the sequence
`bind(n, b); unbind_by_body(b)` never binds an already-bound node — the
documented rebinding edge case does not occur — yet afterwards the maps are
not mutual inverses: the backward map still holds `(b, n)` while the forward
map is empty.  So the rebinding edge case is not the sole exception. -/
theorem physicsBinder_inverse_claim_counterexample :
    noRebind PhysicsBinder.default
        [BinderOp.bind ⟨1, 1⟩ ⟨⟨[5]⟩⟩, BinderOp.unbindByBody ⟨⟨[5]⟩⟩] = true
    ∧ (runOps PhysicsBinder.default
        [BinderOp.bind ⟨1, 1⟩ ⟨⟨[5]⟩⟩, BinderOp.unbindByBody ⟨⟨[5]⟩⟩]).forward_map = []
    ∧ (runOps PhysicsBinder.default
        [BinderOp.bind ⟨1, 1⟩ ⟨⟨[5]⟩⟩, BinderOp.unbindByBody ⟨⟨[5]⟩⟩]).backward_map
        = [(⟨⟨[5]⟩⟩, ⟨1, 1⟩)]
    ∧ ¬ mutualInverse (runOps PhysicsBinder.default
        [BinderOp.bind ⟨1, 1⟩ ⟨⟨[5]⟩⟩, BinderOp.unbindByBody ⟨⟨[5]⟩⟩]) := by
  decide

/-- C1 (amended): for every sequence of `bind`/`unbind`/`unbind_by_body`
calls from the empty binder in which every `bind` is fresh on both sides
(its node is not currently bound and its body is not currently a backward
key), after each call every forward pair is mirrored in the backward map;
and if moreover the sequence contains no `unbind_by_body` call, the two maps
are exact mutual inverses after each call.  (The unrestricted claim fails:
`unbind_by_body` and rebinding of an already-bound node or body each leave a
stale or mismatched backward entry.) -/
theorem physicsBinder_run_inverse_amended (ops : List BinderOp)
    (h : freshBinds PhysicsBinder.default ops = true) :
    forwardInverse (runOps PhysicsBinder.default ops)
    ∧ (noUnbindByBody ops = true → mutualInverse (runOps PhysicsBinder.default ops)) := by
  have hfwd : forwardInverse PhysicsBinder.default := by
    intro p hp
    exact absurd hp (List.not_mem_nil p)
  have hbwd : backwardInverse PhysicsBinder.default := by
    intro p hp
    exact absurd hp (List.not_mem_nil p)
  exact ⟨freshBinds_run_forwardInverse ops _ h hfwd,
    fun hno => freshBinds_run_mutualInverse ops _ h hno ⟨hfwd, hbwd⟩⟩

/-- Closed instance of `physicsBinder_run_inverse_amended` on a concrete
fresh sequence of two binds and an unbind. -/
theorem physicsBinder_run_inverse_amended_witness :
    forwardInverse (runOps PhysicsBinder.default
      [BinderOp.bind ⟨1, 1⟩ ⟨⟨[1]⟩⟩, BinderOp.bind ⟨2, 1⟩ ⟨⟨[2]⟩⟩, BinderOp.unbind ⟨1, 1⟩])
    ∧ (noUnbindByBody
        [BinderOp.bind ⟨1, 1⟩ ⟨⟨[1]⟩⟩, BinderOp.bind ⟨2, 1⟩ ⟨⟨[2]⟩⟩, BinderOp.unbind ⟨1, 1⟩]
          = true →
      mutualInverse (runOps PhysicsBinder.default
        [BinderOp.bind ⟨1, 1⟩ ⟨⟨[1]⟩⟩, BinderOp.bind ⟨2, 1⟩ ⟨⟨[2]⟩⟩,
          BinderOp.unbind ⟨1, 1⟩])) :=
  physicsBinder_run_inverse_amended
    [BinderOp.bind ⟨1, 1⟩ ⟨⟨[1]⟩⟩, BinderOp.bind ⟨2, 1⟩ ⟨⟨[2]⟩⟩, BinderOp.unbind ⟨1, 1⟩]
    (by decide)

theorem mapRetain_keepval {α β : Type} (c : α → β → Bool) (l : List (α × β)) :
    mapRetain (fun k v => (c k v, v)) l = l.filter (fun q => c q.1 q.2) := by
  induction l with
  | nil => rfl
  | cons p t ih =>
    by_cases h : c p.1 p.2
    · simp [mapRetain, h, ih, List.filter_cons]
    · simp [mapRetain, h, ih, List.filter_cons]

theorem mapRetain_mem {α β : Type} (f : α → β → Bool × β) {p : α × β} {l : List (α × β)}
    (hp : p ∈ l) (hk : (f p.1 p.2).1 = true) :
    (p.1, (f p.1 p.2).2) ∈ mapRetain f l := by
  induction l with
  | nil => exact absurd hp (List.not_mem_nil p)
  | cons q t ih =>
    rcases List.mem_cons.1 hp with h | h
    · subst h
      simp only [mapRetain, hk, if_true]
      exact List.mem_cons_self _ _
    · by_cases hq : (f q.1 q.2).1
      · simp only [mapRetain, hq, if_true]
        exact List.mem_cons_of_mem _ (ih h)
      · simp only [mapRetain, hq, if_false]
        exact ih h

theorem mapFind?_filter_pos {α β : Type} [DecidableEq α] {k : α} {v : β}
    (q : α × β → Bool) {l : List (α × β)}
    (h : mapFind? k l = some v) (hq : q (k, v) = true) :
    mapFind? k (l.filter q) = some v := by
  induction l with
  | nil => simp [mapFind?] at h
  | cons r t ih =>
    by_cases hr : r.1 = k
    · simp only [mapFind?, hr, if_true, Option.some.injEq] at h
      have hrkv : r = (k, v) := by
        cases r with
        | mk a b =>
          simp only at hr h
          rw [hr, h]
      rw [List.filter_cons, hrkv, hq]
      simp [mapFind?]
    · simp only [mapFind?, hr, if_false] at h
      rw [List.filter_cons]
      by_cases hqr : q r
      · simp only [hqr, if_true, mapFind?, hr, if_false]
        exact ih h
      · simp only [hqr]
        exact ih h

/-- C8: `retain` with the constant-false predicate empties both maps of any
(in particular any non-empty) binder, leaving the mutual-inverse invariant
intact; in general, for a predicate that keeps the body unchanged, `retain`
filters both maps with the same (node, body) test — the forward map by
(key, value) and the backward map by (value, key) — so a mutually inverse
binder stays mutually inverse. -/
theorem physicsBinder_retain_false_empties :
    (∀ s : PhysicsBinder,
      s.forward_map ≠ [] ∨ s.backward_map ≠ [] →
        (PhysicsBinder.retain (fun _ b => (false, b)) s).forward_map = []
        ∧ (PhysicsBinder.retain (fun _ b => (false, b)) s).backward_map = []
        ∧ mutualInverse (PhysicsBinder.retain (fun _ b => (false, b)) s))
    ∧ ∀ (c : Handle → RigidBodyHandle → Bool) (s : PhysicsBinder),
        mutualInverse s →
        (PhysicsBinder.retain (fun n b => (c n b, b)) s).forward_map
          = s.forward_map.filter (fun q => c q.1 q.2)
        ∧ (PhysicsBinder.retain (fun n b => (c n b, b)) s).backward_map
          = s.backward_map.filter (fun q => c q.2 q.1)
        ∧ mutualInverse (PhysicsBinder.retain (fun n b => (c n b, b)) s) := by
  have hgen : ∀ (c : Handle → RigidBodyHandle → Bool) (s : PhysicsBinder),
      (PhysicsBinder.retain (fun n b => (c n b, b)) s).forward_map
        = s.forward_map.filter (fun q => c q.1 q.2)
      ∧ (PhysicsBinder.retain (fun n b => (c n b, b)) s).backward_map
        = s.backward_map.filter (fun q => c q.2 q.1) := by
    intro c s
    constructor
    · exact mapRetain_keepval c s.forward_map
    · exact mapRetain_keepval (fun node handle => c handle node) s.backward_map
  have hinv : ∀ (c : Handle → RigidBodyHandle → Bool) (s : PhysicsBinder),
      mutualInverse s → mutualInverse (PhysicsBinder.retain (fun n b => (c n b, b)) s) := by
    intro c s hI
    constructor
    · intro p hp
      rw [(hgen c s).1] at hp
      rw [(hgen c s).2]
      have hm := List.mem_filter.1 hp
      exact mapFind?_filter_pos _ (hI.1 p hm.1) hm.2
    · intro p hp
      rw [(hgen c s).2] at hp
      rw [(hgen c s).1]
      have hm := List.mem_filter.1 hp
      exact mapFind?_filter_pos _ (hI.2 p hm.1) hm.2
  constructor
  · intro s _
    have h1 := (hgen (fun _ _ => false) s).1
    have h2 := (hgen (fun _ _ => false) s).2
    simp only [List.filter_false] at h1 h2
    refine ⟨h1, h2, ?_, ?_⟩
    · intro p hp
      rw [h1] at hp
      exact absurd hp (List.not_mem_nil p)
    · intro p hp
      rw [h2] at hp
      exact absurd hp (List.not_mem_nil p)
  · intro c s hI
    exact ⟨(hgen c s).1, (hgen c s).2, hinv c s hI⟩

/-- Closed instance of `physicsBinder_retain_false_empties` on the one-pair
binder, discharging the non-emptiness and mutual-inverse hypotheses. -/
theorem physicsBinder_retain_false_empties_witness :
    ((PhysicsBinder.retain (fun _ b => (false, b))
        { forward_map := [(⟨1, 1⟩, ⟨⟨[1]⟩⟩)]
          backward_map := [(⟨⟨[1]⟩⟩, ⟨1, 1⟩)]
          enabled := true }).forward_map = []
      ∧ (PhysicsBinder.retain (fun _ b => (false, b))
        { forward_map := [(⟨1, 1⟩, ⟨⟨[1]⟩⟩)]
          backward_map := [(⟨⟨[1]⟩⟩, ⟨1, 1⟩)]
          enabled := true }).backward_map = []
      ∧ mutualInverse (PhysicsBinder.retain (fun _ b => (false, b))
        { forward_map := [(⟨1, 1⟩, ⟨⟨[1]⟩⟩)]
          backward_map := [(⟨⟨[1]⟩⟩, ⟨1, 1⟩)]
          enabled := true }))
    ∧ mutualInverse (PhysicsBinder.retain (fun n b => ((fun _ _ => true) n b, b))
        { forward_map := [(⟨1, 1⟩, ⟨⟨[1]⟩⟩)]
          backward_map := [(⟨⟨[1]⟩⟩, ⟨1, 1⟩)]
          enabled := true }) :=
  ⟨physicsBinder_retain_false_empties.1
      { forward_map := [(⟨1, 1⟩, ⟨⟨[1]⟩⟩)]
        backward_map := [(⟨⟨[1]⟩⟩, ⟨1, 1⟩)]
        enabled := true }
      (Or.inl (by decide)),
    (physicsBinder_retain_false_empties.2 (fun _ _ => true)
      { forward_map := [(⟨1, 1⟩, ⟨⟨[1]⟩⟩)]
        backward_map := [(⟨⟨[1]⟩⟩, ⟨1, 1⟩)]
        enabled := true }
      (by decide)).2.2⟩

/-- C10: in `retain`, value mutations made by the predicate survive only in
the forward-map pass (the kept forward entry stores the updated body); the
backward-map pass hands the predicate a copy of the backward key and keeps
its entries byte-for-byte unchanged, filtering only.  Consequently a
body-mutating predicate leaves the two maps disagreeing on the body of a
retained node, as the concrete instance shows. -/
theorem physicsBinder_retain_mutation_forward_only :
    (∀ (f : Handle → RigidBodyHandle → Bool × RigidBodyHandle) (s : PhysicsBinder),
      (PhysicsBinder.retain f s).backward_map
        = s.backward_map.filter (fun q => (f q.2 q.1).1)
      ∧ ∀ p ∈ s.forward_map, (f p.1 p.2).1 = true →
          (p.1, (f p.1 p.2).2) ∈ (PhysicsBinder.retain f s).forward_map)
    ∧ (PhysicsBinder.retain (fun _ _ => (true, ⟨⟨[2]⟩⟩))
        { forward_map := [(⟨1, 1⟩, ⟨⟨[1]⟩⟩)]
          backward_map := [(⟨⟨[1]⟩⟩, ⟨1, 1⟩)]
          enabled := true }).forward_map = [(⟨1, 1⟩, ⟨⟨[2]⟩⟩)]
    ∧ (PhysicsBinder.retain (fun _ _ => (true, ⟨⟨[2]⟩⟩))
        { forward_map := [(⟨1, 1⟩, ⟨⟨[1]⟩⟩)]
          backward_map := [(⟨⟨[1]⟩⟩, ⟨1, 1⟩)]
          enabled := true }).backward_map = [(⟨⟨[1]⟩⟩, ⟨1, 1⟩)]
    ∧ ¬ mutualInverse (PhysicsBinder.retain (fun _ _ => (true, ⟨⟨[2]⟩⟩))
        { forward_map := [(⟨1, 1⟩, ⟨⟨[1]⟩⟩)]
          backward_map := [(⟨⟨[1]⟩⟩, ⟨1, 1⟩)]
          enabled := true }) := by
  refine ⟨?_, by decide, by decide, by decide⟩
  intro f s
  constructor
  · exact mapRetain_keepval (fun node handle => (f handle node).1) s.backward_map
  · intro p hp hk
    exact mapRetain_mem f hp hk

/-- Closed instance of `physicsBinder_retain_mutation_forward_only`,
discharging the membership and keep-flag hypotheses at a concrete input. -/
theorem physicsBinder_retain_mutation_forward_only_witness :
    (PhysicsBinder.retain (fun _ _ => (true, ⟨⟨[3]⟩⟩))
      { forward_map := [(⟨1, 1⟩, ⟨⟨[1]⟩⟩)]
        backward_map := [(⟨⟨[1]⟩⟩, ⟨1, 1⟩)]
        enabled := true }).backward_map
      = [(⟨⟨[1]⟩⟩, ⟨1, 1⟩)].filter
          (fun q => ((fun _ _ => ((true : Bool), (⟨⟨[3]⟩⟩ : RigidBodyHandle))) q.2 q.1).1)
    ∧ ((⟨1, 1⟩ : Handle), (⟨⟨[3]⟩⟩ : RigidBodyHandle)) ∈
        (PhysicsBinder.retain (fun _ _ => (true, ⟨⟨[3]⟩⟩))
          { forward_map := [(⟨1, 1⟩, ⟨⟨[1]⟩⟩)]
            backward_map := [(⟨⟨[1]⟩⟩, ⟨1, 1⟩)]
            enabled := true }).forward_map :=
  ⟨(physicsBinder_retain_mutation_forward_only.1 (fun _ _ => (true, ⟨⟨[3]⟩⟩))
      { forward_map := [(⟨1, 1⟩, ⟨⟨[1]⟩⟩)]
        backward_map := [(⟨⟨[1]⟩⟩, ⟨1, 1⟩)]
        enabled := true }).1,
    (physicsBinder_retain_mutation_forward_only.1 (fun _ _ => (true, ⟨⟨[3]⟩⟩))
      { forward_map := [(⟨1, 1⟩, ⟨⟨[1]⟩⟩)]
        backward_map := [(⟨⟨[1]⟩⟩, ⟨1, 1⟩)]
        enabled := true }).2 (⟨1, 1⟩, ⟨⟨[1]⟩⟩) (by decide) (by decide)⟩

/-- Failure of a visitor field or region read. -/
inductive VisitError where
  | fieldMissing (name : String)
deriving DecidableEq

/-- Read of an optional field, turning absence into an error (the `?`
operator applied to a `visit` call). -/
def vread {α : Type} (o : Option α) (name : String) : Except VisitError α :=
  match o with
  | some a => Except.ok a
  | none => Except.error (VisitError.fieldMissing name)

/-- The in-memory bytes of a `u64` value on the engine's (little-endian)
targets; `std::mem::transmute` of `[u64; 2]` to `[u8; 16]` concatenates two
such layouts. -/
def u64Bytes (n : Nat) : List Nat :=
  (List.range 8).map (fun i => n / 256 ^ i % 256)

/-- The named region a rapier handle wrapper visits: the modern "Id" field
and the legacy "Index"/"Generation" fields. -/
structure RapierHandleRegionData where
  id : Option Uuid
  index : Option Nat
  generation : Option Nat
deriving DecidableEq

/-- Read path of the `Visit` impl generated by `define_rapier_handle!`: try
the modern "Id" field; when that read fails while in read mode, fall back to
the legacy "Index" then "Generation" `u64` fields and reinterpret the packed
pair as the 16 uuid bytes. -/
def rapierHandleVisitRead (d : RapierHandleRegionData) : Except VisitError Uuid :=
  match d.id with
  | some u => Except.ok u
  | none => do
    let index ← vread d.index "Index"
    let generation ← vread d.generation "Generation"
    Except.ok ⟨u64Bytes index ++ u64Bytes generation⟩

/-- Write path of the generated `Visit` impl: `self.0.visit("Id", ..)`
succeeds while writing, so only the modern single "Id" field is emitted. -/
def rapierHandleVisitWrite (u : Uuid) : RapierHandleRegionData :=
  { id := some u, index := none, generation := none }

/-- `impl Visit for RigidBodyHandle` (read). -/
def RigidBodyHandle.visitRead (d : RapierHandleRegionData) :
    Except VisitError RigidBodyHandle :=
  Except.map RigidBodyHandle.mk (rapierHandleVisitRead d)

/-- `impl Visit for RigidBodyHandle` (write). -/
def RigidBodyHandle.visitWrite (h : RigidBodyHandle) : RapierHandleRegionData :=
  rapierHandleVisitWrite h.id

/-- `impl Visit for ColliderHandle` (read). -/
def ColliderHandle.visitRead (d : RapierHandleRegionData) :
    Except VisitError ColliderHandle :=
  Except.map ColliderHandle.mk (rapierHandleVisitRead d)

/-- `impl Visit for ColliderHandle` (write). -/
def ColliderHandle.visitWrite (h : ColliderHandle) : RapierHandleRegionData :=
  rapierHandleVisitWrite h.id

/-- `impl Visit for JointHandle` (read). -/
def JointHandle.visitRead (d : RapierHandleRegionData) :
    Except VisitError JointHandle :=
  Except.map JointHandle.mk (rapierHandleVisitRead d)

/-- `impl Visit for JointHandle` (write). -/
def JointHandle.visitWrite (h : JointHandle) : RapierHandleRegionData :=
  rapierHandleVisitWrite h.id

/-- C3: for each of the three identifier wrappers, reading a region without
the modern "Id" field surfaces no error: the legacy "Index" and "Generation"
fields are byte-packed, index bytes first then generation bytes, into the
128-bit id — concretely, (index=7, generation=3) yields the id whose bytes
are `u64Bytes 7 ++ u64Bytes 3` — while writing always emits only the modern
"Id" field and never the legacy fields. -/
theorem rapier_handle_visit_legacy_migration :
    (∀ index generation : Nat,
      RigidBodyHandle.visitRead ⟨none, some index, some generation⟩
          = Except.ok ⟨⟨u64Bytes index ++ u64Bytes generation⟩⟩
      ∧ ColliderHandle.visitRead ⟨none, some index, some generation⟩
          = Except.ok ⟨⟨u64Bytes index ++ u64Bytes generation⟩⟩
      ∧ JointHandle.visitRead ⟨none, some index, some generation⟩
          = Except.ok ⟨⟨u64Bytes index ++ u64Bytes generation⟩⟩)
    ∧ RigidBodyHandle.visitRead ⟨none, some 7, some 3⟩
        = Except.ok ⟨⟨u64Bytes 7 ++ u64Bytes 3⟩⟩
    ∧ (∀ h : RigidBodyHandle,
        (RigidBodyHandle.visitWrite h).id = some h.id
        ∧ (RigidBodyHandle.visitWrite h).index = none
        ∧ (RigidBodyHandle.visitWrite h).generation = none)
    ∧ (∀ h : ColliderHandle,
        (ColliderHandle.visitWrite h).id = some h.id
        ∧ (ColliderHandle.visitWrite h).index = none
        ∧ (ColliderHandle.visitWrite h).generation = none)
    ∧ (∀ h : JointHandle,
        (JointHandle.visitWrite h).id = some h.id
        ∧ (JointHandle.visitWrite h).index = none
        ∧ (JointHandle.visitWrite h).generation = none) :=
  ⟨fun _ _ => ⟨rfl, rfl, rfl⟩, rfl,
    fun _ => ⟨rfl, rfl, rfl⟩, fun _ => ⟨rfl, rfl, rfl⟩, fun _ => ⟨rfl, rfl, rfl⟩⟩

/-- The named region `impl Visit for PhysicsBinder` visits: the forward map
("Map"), the backward map ("RevMap"), and the "Enabled" flag; a field absent
from an old save is `none`. -/
structure PhysicsBinderData where
  map : Option (List (Handle × RigidBodyHandle))
  revMap : Option (List (RigidBodyHandle × Handle))
  enabled : Option Bool
deriving DecidableEq

/-- Write path of `impl Visit for PhysicsBinder`: all three regions are
emitted. -/
def physicsBinderVisitWrite (s : PhysicsBinder) : PhysicsBinderData :=
  { map := some s.forward_map
    revMap := some s.backward_map
    enabled := some s.enabled }

/-- Read path of `impl Visit for PhysicsBinder` into the prior state `s`:
"Map" is required; if reading "RevMap" fails, the backward map is rebuilt by
inserting the inverse of every forward pair; "Enabled" is required. -/
def physicsBinderVisitRead (s : PhysicsBinder) (d : PhysicsBinderData) :
    Except VisitError PhysicsBinder := do
  let forward ← vread d.map "Map"
  let backward :=
    match d.revMap with
    | some rm => rm
    | none => forward.foldl (fun bm p => mapInsert p.2 p.1 bm) s.backward_map
  let enabled ← vread d.enabled "Enabled"
  Except.ok { forward_map := forward, backward_map := backward, enabled := enabled }

theorem foldl_insert_find_not_mem {α β : Type} [DecidableEq α] [DecidableEq β]
    {b : β} (m : List (α × β)) (acc : List (β × α)) (hb : b ∉ m.map Prod.snd) :
    mapFind? b (m.foldl (fun bm p => mapInsert p.2 p.1 bm) acc) = mapFind? b acc := by
  induction m generalizing acc with
  | nil => rfl
  | cons p t ih =>
    simp only [List.map_cons, List.mem_cons, not_or] at hb
    rw [List.foldl_cons, ih _ hb.2, mapFind?_insert_ne _ _ hb.1]

theorem foldl_insert_find_of_mem {α β : Type} [DecidableEq α] [DecidableEq β]
    {n : α} {b : β} (m : List (α × β)) (acc : List (β × α))
    (hnd : (m.map Prod.snd).Nodup) (hm : (n, b) ∈ m) :
    mapFind? b (m.foldl (fun bm p => mapInsert p.2 p.1 bm) acc) = some n := by
  induction m generalizing acc with
  | nil => exact absurd hm (List.not_mem_nil _)
  | cons p t ih =>
    rw [List.map_cons, List.nodup_cons] at hnd
    rcases List.mem_cons.1 hm with h | h
    · subst h
      rw [List.foldl_cons]
      rw [foldl_insert_find_not_mem t _ hnd.1]
      exact mapFind?_insert_self _ _ _
    · rw [List.foldl_cons]
      exact ih _ hnd.2 h

theorem foldl_insert_find_inv {α β : Type} [DecidableEq α] [DecidableEq β]
    {n : α} {b : β} (m : List (α × β)) (acc : List (β × α))
    (h : mapFind? b (m.foldl (fun bm p => mapInsert p.2 p.1 bm) acc) = some n) :
    (n, b) ∈ m ∨ mapFind? b acc = some n := by
  induction m generalizing acc with
  | nil => exact Or.inr h
  | cons p t ih =>
    rw [List.foldl_cons] at h
    rcases ih _ h with h2 | h2
    · exact Or.inl (List.mem_cons_of_mem _ h2)
    · by_cases he : b = p.2
      · subst he
        rw [mapFind?_insert_self] at h2
        injection h2 with h2
        subst h2
        exact Or.inl (List.mem_cons_self _ _)
      · rw [mapFind?_insert_ne _ _ he] at h2
        exact Or.inr h2

/-- C4: serializing a binder and deserializing the result (into a default
binder) restores the forward map, the backward map and the `enabled` flag
exactly; deserializing a payload whose "RevMap" region is missing still
succeeds, keeps the forward map and the persisted `enabled` flag, and (when
the forward map binds each body at most once, as a serialized `HashMap`
does) rebuilds a backward map that is exactly the inverse of the
deserialized forward map. -/
theorem physicsBinder_visit_roundtrip :
    (∀ s : PhysicsBinder,
      physicsBinderVisitRead PhysicsBinder.default (physicsBinderVisitWrite s)
        = Except.ok s)
    ∧ ∀ (m : List (Handle × RigidBodyHandle)) (e : Bool),
        (m.map Prod.snd).Nodup →
        ∃ s2 : PhysicsBinder,
          physicsBinderVisitRead PhysicsBinder.default
              { map := some m, revMap := none, enabled := some e } = Except.ok s2
          ∧ s2.forward_map = m
          ∧ s2.enabled = e
          ∧ ∀ (n : Handle) (b : RigidBodyHandle),
              ((n, b) ∈ m ↔ mapFind? b s2.backward_map = some n) := by
  constructor
  · intro s
    rfl
  · intro m e hnd
    refine ⟨{ forward_map := m
              backward_map := m.foldl (fun bm p => mapInsert p.2 p.1 bm) []
              enabled := e }, rfl, rfl, rfl, ?_⟩
    intro n b
    constructor
    · intro hm
      exact foldl_insert_find_of_mem m [] hnd hm
    · intro hf
      rcases foldl_insert_find_inv m [] hf with h | h
      · exact h
      · exact absurd h (by simp [mapFind?])

/-- Closed instance of `physicsBinder_visit_roundtrip` on a two-binding
payload with distinct bodies, discharging the nodup hypothesis. -/
theorem physicsBinder_visit_roundtrip_witness :
    ∃ s2 : PhysicsBinder,
      physicsBinderVisitRead PhysicsBinder.default
          { map := some [(⟨1, 1⟩, ⟨⟨[1]⟩⟩), (⟨2, 1⟩, ⟨⟨[2]⟩⟩)]
            revMap := none
            enabled := some false } = Except.ok s2
      ∧ s2.forward_map = [(⟨1, 1⟩, ⟨⟨[1]⟩⟩), (⟨2, 1⟩, ⟨⟨[2]⟩⟩)]
      ∧ s2.enabled = false
      ∧ ∀ (n : Handle) (b : RigidBodyHandle),
          ((n, b) ∈ [((⟨1, 1⟩ : Handle), (⟨⟨[1]⟩⟩ : RigidBodyHandle)), (⟨2, 1⟩, ⟨⟨[2]⟩⟩)]
            ↔ mapFind? b s2.backward_map = some n) :=
  physicsBinder_visit_roundtrip.2 [(⟨1, 1⟩, ⟨⟨[1]⟩⟩), (⟨2, 1⟩, ⟨⟨[2]⟩⟩)] false (by decide)

/-- `TextureKind` of a render-target texture (resource module). -/
inductive TextureKind where
  | line (length : Nat)
  | rectangle (width : Nat) (height : Nat)
  | cube (width : Nat) (height : Nat)
  | volume (width : Nat) (height : Nat) (depth : Nat)
deriving DecidableEq

/-- Whether a texture kind is the rectangular one. -/
def TextureKind.isRectangle : TextureKind → Bool
  | TextureKind.rectangle _ _ => true
  | _ => false

/-- A two-component size vector (the `f32` components are carried as the
exact `u32` texture or window values; no arithmetic on them is needed). -/
structure Vector2 where
  x : Nat
  y : Nat
deriving DecidableEq

/-- A scene as `Engine::update` observes it (the 3D `Scene` and the 2D
`Scene2d` expose the same shape here): the `enabled` flag and the optional
render target's texture kind. -/
structure Scene where
  enabled : Bool
  render_target : Option TextureKind
deriving DecidableEq

/-- The part of the `Engine` state that `Engine::update` iterates: the 3D
and the 2D scene containers. -/
structure Engine where
  scenes : List Scene
  scenes2d : List Scene
deriving DecidableEq

/-- The diagnostic of the abort branch in `Engine::update`. -/
def renderTargetPanicMsg : String :=
  "only rectangle textures can be used as render target!"

/-- An enabled scene whose render target exists but is not rectangular. -/
def sceneBadTarget (s : Scene) : Bool :=
  match s.render_target with
  | some k => !k.isRectangle
  | none => false

/-- One observable step of `Engine::update`; scene steps carry the index of
the scene in its container and the frame size passed to `scene.update`. -/
inductive UpdateEvent where
  | resourceUpdate (dt : Nat)
  | sceneUpdate (ix : Nat) (frameSize : Vector2) (dt : Nat)
  | scene2dUpdate (ix : Nat) (frameSize : Vector2) (dt : Nat)
  | uiUpdate (windowSize : Vector2) (dt : Nat)
deriving DecidableEq

/-- Effective frame size of a scene in `Engine::update`: the window size
without a render target, the render target's pixel dimensions when it is
rectangular, and the abort (embedded as an error) for any other kind. -/
def frameSizeFor (windowSize : Vector2) (s : Scene) : Except String Vector2 :=
  match s.render_target with
  | none => Except.ok windowSize
  | some rt =>
    match rt with
    | TextureKind.rectangle width height => Except.ok ⟨width, height⟩
    | _ => Except.error renderTargetPanicMsg

/-- The `iter_mut().filter(|s| s.enabled)` loop of `Engine::update` over one
container starting at index `i`: disabled scenes are skipped, each enabled
scene emits `mk index frameSize dt`, and a non-rectangular render target
aborts the whole update. -/
def updateScenes (windowSize : Vector2) (dt : Nat)
    (mk : Nat → Vector2 → Nat → UpdateEvent) :
    Nat → List Scene → Except String (List UpdateEvent)
  | _, [] => Except.ok []
  | i, s :: rest =>
    if s.enabled then
      match frameSizeFor windowSize s with
      | Except.error msg => Except.error msg
      | Except.ok fs =>
        match updateScenes windowSize dt mk (i + 1) rest with
        | Except.error msg => Except.error msg
        | Except.ok tail => Except.ok (mk i fs dt :: tail)
    else updateScenes windowSize dt mk (i + 1) rest

/-- `Engine::update`: resource-manager bookkeeping with `dt`, then every
enabled 3D scene, then every enabled 2D scene, then the UI with the window
size; an abort in either scene loop propagates. -/
def Engine.update (e : Engine) (dt : Nat) (windowSize : Vector2) :
    Except String (List UpdateEvent) :=
  match updateScenes windowSize dt UpdateEvent.sceneUpdate 0 e.scenes with
  | Except.error msg => Except.error msg
  | Except.ok ev3 =>
    match updateScenes windowSize dt UpdateEvent.scene2dUpdate 0 e.scenes2d with
    | Except.error msg => Except.error msg
    | Except.ok ev2 =>
      Except.ok (UpdateEvent.resourceUpdate dt
        :: (ev3 ++ (ev2 ++ [UpdateEvent.uiUpdate windowSize dt])))

theorem frameSizeFor_bad (windowSize : Vector2) (s : Scene)
    (h : sceneBadTarget s = true) :
    frameSizeFor windowSize s = Except.error renderTargetPanicMsg := by
  unfold sceneBadTarget at h
  unfold frameSizeFor
  cases hrt : s.render_target with
  | none => rw [hrt] at h; exact absurd h (by simp)
  | some k =>
    rw [hrt] at h
    cases k with
    | rectangle w h2 => simp [TextureKind.isRectangle] at h
    | line l => rfl
    | cube w h2 => rfl
    | volume w h2 d => rfl

theorem frameSizeFor_good (windowSize : Vector2) (s : Scene)
    (h : sceneBadTarget s = false) :
    ∃ v, frameSizeFor windowSize s = Except.ok v := by
  unfold sceneBadTarget at h
  unfold frameSizeFor
  cases hrt : s.render_target with
  | none => exact ⟨windowSize, rfl⟩
  | some k =>
    rw [hrt] at h
    cases k with
    | rectangle w h2 => exact ⟨⟨w, h2⟩, rfl⟩
    | line l => simp [TextureKind.isRectangle] at h
    | cube w h2 => simp [TextureKind.isRectangle] at h
    | volume w h2 d => simp [TextureKind.isRectangle] at h

theorem updateScenes_error_msg (windowSize : Vector2) (dt : Nat)
    (mk : Nat → Vector2 → Nat → UpdateEvent) :
    ∀ (l : List Scene) (i : Nat) (msg : String),
      updateScenes windowSize dt mk i l = Except.error msg →
      msg = renderTargetPanicMsg := by
  intro l
  induction l with
  | nil =>
    intro i msg h
    exact absurd h (by simp [updateScenes])
  | cons s rest ih =>
    intro i msg h
    unfold updateScenes at h
    by_cases hs : s.enabled
    · rw [if_pos hs] at h
      cases hf : frameSizeFor windowSize s with
      | error m2 =>
        rw [hf] at h
        injection h with h
        subst h
        cases hbt : sceneBadTarget s with
        | true => rw [frameSizeFor_bad windowSize s hbt] at hf; injection hf with hf; exact hf.symm
        | false =>
          rcases frameSizeFor_good windowSize s hbt with ⟨v, hv⟩
          rw [hv] at hf
          exact absurd hf (by simp)
      | ok fs =>
        rw [hf] at h
        cases ht : updateScenes windowSize dt mk (i + 1) rest with
        | error m2 =>
          rw [ht] at h
          injection h with h
          subst h
          exact ih _ _ ht
        | ok tail => rw [ht] at h; exact absurd h (by simp)
    · rw [if_neg hs] at h
      exact ih _ _ h

theorem updateScenes_error (windowSize : Vector2) (dt : Nat)
    (mk : Nat → Vector2 → Nat → UpdateEvent) :
    ∀ (l : List Scene) (i : Nat),
      (∃ s ∈ l, s.enabled = true ∧ sceneBadTarget s = true) →
      updateScenes windowSize dt mk i l = Except.error renderTargetPanicMsg := by
  intro l
  induction l with
  | nil =>
    intro i h
    rcases h with ⟨s, hs, _⟩
    exact absurd hs (List.not_mem_nil s)
  | cons s rest ih =>
    intro i h
    unfold updateScenes
    rcases h with ⟨s2, hs2, hen, hbad⟩
    rcases List.mem_cons.1 hs2 with he | he
    · subst he
      rw [if_pos hen, frameSizeFor_bad windowSize s2 hbad]
    · by_cases hs : s.enabled
      · rw [if_pos hs]
        cases hf : frameSizeFor windowSize s with
        | error msg =>
          have := updateScenes_error_msg windowSize dt mk (s :: rest) i msg
          rw [updateScenes, if_pos hs, hf] at this
          rw [this rfl]
        | ok fs =>
          rw [ih (i + 1) ⟨s2, he, hen, hbad⟩]
      · rw [if_neg hs]
        exact ih (i + 1) ⟨s2, he, hen, hbad⟩

theorem updateScenes_ok (windowSize : Vector2) (dt : Nat)
    (mk : Nat → Vector2 → Nat → UpdateEvent) :
    ∀ (l : List Scene) (i : Nat),
      (∀ s ∈ l, s.enabled = true → sceneBadTarget s = false) →
      ∃ evs, updateScenes windowSize dt mk i l = Except.ok evs := by
  intro l
  induction l with
  | nil => exact fun i _ => ⟨[], rfl⟩
  | cons s rest ih =>
    intro i h
    unfold updateScenes
    by_cases hs : s.enabled
    · rw [if_pos hs]
      rcases frameSizeFor_good windowSize s (h s (List.mem_cons_self _ _) hs) with ⟨v, hv⟩
      rcases ih (i + 1) (fun s2 hs2 => h s2 (List.mem_cons_of_mem _ hs2)) with ⟨tail, htail⟩
      rw [hv, htail]
      exact ⟨mk i v dt :: tail, rfl⟩
    · rw [if_neg hs]
      exact ih (i + 1) (fun s2 hs2 => h s2 (List.mem_cons_of_mem _ hs2))

theorem updateScenes_sound (windowSize : Vector2) (dt : Nat)
    (mk : Nat → Vector2 → Nat → UpdateEvent) :
    ∀ (l : List Scene) (i : Nat) (evs : List UpdateEvent),
      updateScenes windowSize dt mk i l = Except.ok evs →
      ∀ ev ∈ evs, ∃ j s fs, l.get? j = some s ∧ s.enabled = true
        ∧ frameSizeFor windowSize s = Except.ok fs ∧ ev = mk (i + j) fs dt := by
  intro l
  induction l with
  | nil =>
    intro i evs h ev hev
    unfold updateScenes at h
    injection h with h
    subst h
    exact absurd hev (List.not_mem_nil ev)
  | cons s rest ih =>
    intro i evs h ev hev
    unfold updateScenes at h
    by_cases hs : s.enabled
    · rw [if_pos hs] at h
      cases hf : frameSizeFor windowSize s with
      | error msg => rw [hf] at h; exact absurd h (by simp)
      | ok fs =>
        rw [hf] at h
        cases ht : updateScenes windowSize dt mk (i + 1) rest with
        | error msg => rw [ht] at h; exact absurd h (by simp)
        | ok tail =>
          rw [ht] at h
          injection h with h
          subst h
          rcases List.mem_cons.1 hev with he | he
          · exact ⟨0, s, fs, rfl, hs, hf, by rw [he, Nat.add_zero]⟩
          · rcases ih (i + 1) tail ht ev he with ⟨j, s2, fs2, hg, hen, hfs, hev2⟩
            refine ⟨j + 1, s2, fs2, hg, hen, hfs, ?_⟩
            have h9 : i + (j + 1) = (i + 1) + j := by omega
            rw [h9]
            exact hev2
    · rw [if_neg hs] at h
      rcases ih (i + 1) evs h ev hev with ⟨j, s2, fs2, hg, hen, hfs, hev2⟩
      refine ⟨j + 1, s2, fs2, hg, hen, hfs, ?_⟩
      have h9 : i + (j + 1) = (i + 1) + j := by omega
      rw [h9]
      exact hev2

theorem updateScenes_complete (windowSize : Vector2) (dt : Nat)
    (mk : Nat → Vector2 → Nat → UpdateEvent) :
    ∀ (l : List Scene) (i : Nat) (evs : List UpdateEvent),
      updateScenes windowSize dt mk i l = Except.ok evs →
      ∀ j s, l.get? j = some s → s.enabled = true →
        ∃ fs, frameSizeFor windowSize s = Except.ok fs ∧ mk (i + j) fs dt ∈ evs := by
  intro l
  induction l with
  | nil =>
    intro i evs _ j s hg _
    exact absurd hg (by simp)
  | cons s rest ih =>
    intro i evs h j s2 hg hen
    unfold updateScenes at h
    by_cases hs : s.enabled
    · rw [if_pos hs] at h
      cases hf : frameSizeFor windowSize s with
      | error msg => rw [hf] at h; exact absurd h (by simp)
      | ok fs =>
        rw [hf] at h
        cases ht : updateScenes windowSize dt mk (i + 1) rest with
        | error msg => rw [ht] at h; exact absurd h (by simp)
        | ok tail =>
          rw [ht] at h
          injection h with h
          subst h
          cases j with
          | zero =>
            injection hg with hg
            subst hg
            exact ⟨fs, hf, by rw [Nat.add_zero]; exact List.mem_cons_self _ _⟩
          | succ j2 =>
            rcases ih (i + 1) tail ht j2 s2 hg hen with ⟨fs2, hfs2, hmem⟩
            refine ⟨fs2, hfs2, ?_⟩
            have h9 : i + (j2 + 1) = (i + 1) + j2 := by omega
            rw [h9]
            exact List.mem_cons_of_mem _ hmem
    · rw [if_neg hs] at h
      cases j with
      | zero =>
        injection hg with hg
        subst hg
        exact absurd hen (by simp [hs])
      | succ j2 =>
        rcases ih (i + 1) evs h j2 s2 hg hen with ⟨fs2, hfs2, hmem⟩
        refine ⟨fs2, hfs2, ?_⟩
        have h9 : i + (j2 + 1) = (i + 1) + j2 := by omega
        rw [h9]
        exact hmem

/-- The ordering contract of a successful `Engine::update` trace: resource
bookkeeping first; then the enabled 3D scene advances; then the enabled 2D
scene advances; the UI last with the window size; every event in the 3D
block comes from an enabled 3D scene and every enabled 3D scene appears
there (likewise for 2D); and a disabled scene never receives an advance. -/
def updateTraceOrdered (e : Engine) (dt : Nat) (windowSize : Vector2)
    (tr : List UpdateEvent) : Prop :=
  ∃ ev3 ev2,
    tr = UpdateEvent.resourceUpdate dt
        :: (ev3 ++ (ev2 ++ [UpdateEvent.uiUpdate windowSize dt]))
    ∧ (∀ ev ∈ ev3, ∃ j s fs, e.scenes.get? j = some s ∧ s.enabled = true
        ∧ ev = UpdateEvent.sceneUpdate j fs dt)
    ∧ (∀ ev ∈ ev2, ∃ j s fs, e.scenes2d.get? j = some s ∧ s.enabled = true
        ∧ ev = UpdateEvent.scene2dUpdate j fs dt)
    ∧ (∀ j s, e.scenes.get? j = some s → s.enabled = true →
        ∃ fs, UpdateEvent.sceneUpdate j fs dt ∈ ev3)
    ∧ (∀ j s, e.scenes2d.get? j = some s → s.enabled = true →
        ∃ fs, UpdateEvent.scene2dUpdate j fs dt ∈ ev2)
    ∧ (∀ j s, e.scenes.get? j = some s → s.enabled = false →
        ∀ fs, UpdateEvent.sceneUpdate j fs dt ∉ tr)
    ∧ (∀ j s, e.scenes2d.get? j = some s → s.enabled = false →
        ∀ fs, UpdateEvent.scene2dUpdate j fs dt ∉ tr)

/-- C5: every successful `Engine::update` trace satisfies the ordering
contract `updateTraceOrdered`: resource-manager bookkeeping first, all
enabled 3D scenes before any 2D scene, the UI last with the window size, and
no advance call for a disabled scene. -/
theorem engine_update_order (e : Engine) (dt : Nat) (windowSize : Vector2)
    (tr : List UpdateEvent) (h : Engine.update e dt windowSize = Except.ok tr) :
    updateTraceOrdered e dt windowSize tr := by
  unfold Engine.update at h
  cases h3 : updateScenes windowSize dt UpdateEvent.sceneUpdate 0 e.scenes with
  | error msg => rw [h3] at h; exact absurd h (by simp)
  | ok ev3 =>
    cases h2 : updateScenes windowSize dt UpdateEvent.scene2dUpdate 0 e.scenes2d with
    | error msg => rw [h3, h2] at h; exact absurd h (by simp)
    | ok ev2 =>
      rw [h3, h2] at h
      injection h with h
      subst h
      have hs3 := updateScenes_sound windowSize dt UpdateEvent.sceneUpdate e.scenes 0 ev3 h3
      have hs2 := updateScenes_sound windowSize dt UpdateEvent.scene2dUpdate e.scenes2d 0 ev2 h2
      have hc3 := updateScenes_complete windowSize dt UpdateEvent.sceneUpdate e.scenes 0 ev3 h3
      have hc2 := updateScenes_complete windowSize dt UpdateEvent.scene2dUpdate e.scenes2d 0 ev2 h2
      refine ⟨ev3, ev2, rfl, ?_, ?_, ?_, ?_, ?_, ?_⟩
      · intro ev hev
        rcases hs3 ev hev with ⟨j, s, fs, hg, hen, _, hev2⟩
        exact ⟨j, s, fs, hg, hen, by rw [hev2, Nat.zero_add]⟩
      · intro ev hev
        rcases hs2 ev hev with ⟨j, s, fs, hg, hen, _, hev2⟩
        exact ⟨j, s, fs, hg, hen, by rw [hev2, Nat.zero_add]⟩
      · intro j s hg hen
        rcases hc3 j s hg hen with ⟨fs, _, hmem⟩
        rw [Nat.zero_add] at hmem
        exact ⟨fs, hmem⟩
      · intro j s hg hen
        rcases hc2 j s hg hen with ⟨fs, _, hmem⟩
        rw [Nat.zero_add] at hmem
        exact ⟨fs, hmem⟩
      · intro j s hg hdis fs hmem
        simp only [List.mem_cons, List.mem_append, List.mem_singleton] at hmem
        rcases hmem with hmem | hmem | hmem | hmem
        · exact absurd hmem (by simp)
        · rcases hs3 _ hmem with ⟨j2, s2, fs2, hg2, hen2, _, heq⟩
          rw [Nat.zero_add] at heq
          injection heq with hj _ _
          subst hj
          rw [hg] at hg2
          injection hg2 with hg2
          subst hg2
          rw [hdis] at hen2
          exact absurd hen2 (by simp)
        · rcases hs2 _ hmem with ⟨j2, s2, fs2, hg2, hen2, _, heq⟩
          exact absurd heq (by simp)
        · exact absurd hmem (by simp)
      · intro j s hg hdis fs hmem
        simp only [List.mem_cons, List.mem_append, List.mem_singleton] at hmem
        rcases hmem with hmem | hmem | hmem | hmem
        · exact absurd hmem (by simp)
        · rcases hs3 _ hmem with ⟨j2, s2, fs2, hg2, hen2, _, heq⟩
          exact absurd heq (by simp)
        · rcases hs2 _ hmem with ⟨j2, s2, fs2, hg2, hen2, _, heq⟩
          rw [Nat.zero_add] at heq
          injection heq with hj _ _
          subst hj
          rw [hg] at hg2
          injection hg2 with hg2
          subst hg2
          rw [hdis] at hen2
          exact absurd hen2 (by simp)
        · exact absurd hmem (by simp)

/-- Closed instance of `engine_update_order` on an engine with one enabled
and one disabled 3D scene and one enabled 2D scene, discharging the
successful-update hypothesis by evaluation. -/
theorem engine_update_order_witness :
    updateTraceOrdered
      { scenes := [{ enabled := true, render_target := none },
                   { enabled := false, render_target := none }]
        scenes2d := [{ enabled := true, render_target := some (TextureKind.rectangle 4 3) }] }
      1 ⟨8, 6⟩
      [UpdateEvent.resourceUpdate 1, UpdateEvent.sceneUpdate 0 ⟨8, 6⟩ 1,
        UpdateEvent.scene2dUpdate 0 ⟨4, 3⟩ 1, UpdateEvent.uiUpdate ⟨8, 6⟩ 1] :=
  engine_update_order
    { scenes := [{ enabled := true, render_target := none },
                 { enabled := false, render_target := none }]
      scenes2d := [{ enabled := true, render_target := some (TextureKind.rectangle 4 3) }] }
    1 ⟨8, 6⟩
    [UpdateEvent.resourceUpdate 1, UpdateEvent.sceneUpdate 0 ⟨8, 6⟩ 1,
      UpdateEvent.scene2dUpdate 0 ⟨4, 3⟩ 1, UpdateEvent.uiUpdate ⟨8, 6⟩ 1]
    rfl

/-- C6: if any enabled scene (3D or 2D) declares a render target of a
non-rectangular kind, `Engine::update` reaches the abort branch with the
diagnostic `renderTargetPanicMsg` — the abort is an update-time condition,
since the same engine value is constructed without any error; with only
rectangular (or absent) render targets, update succeeds and every enabled
scene with a rectangular render target is advanced with the target's pixel
dimensions instead of the window size. -/
theorem engine_update_render_target_abort (e : Engine) (dt : Nat) (windowSize : Vector2) :
    ((e.scenes.any (fun s => s.enabled && sceneBadTarget s)
        || e.scenes2d.any (fun s => s.enabled && sceneBadTarget s)) = true →
      Engine.update e dt windowSize = Except.error renderTargetPanicMsg)
    ∧ ((e.scenes ++ e.scenes2d).all (fun s => !s.enabled || !sceneBadTarget s) = true →
      ∃ tr, Engine.update e dt windowSize = Except.ok tr
        ∧ (∀ j s w h2, e.scenes.get? j = some s → s.enabled = true →
            s.render_target = some (TextureKind.rectangle w h2) →
            UpdateEvent.sceneUpdate j ⟨w, h2⟩ dt ∈ tr)
        ∧ (∀ j s w h2, e.scenes2d.get? j = some s → s.enabled = true →
            s.render_target = some (TextureKind.rectangle w h2) →
            UpdateEvent.scene2dUpdate j ⟨w, h2⟩ dt ∈ tr)) := by
  constructor
  · intro h
    rcases Bool.or_eq_true_iff.1 h with hb | hb
    · rcases List.any_eq_true.1 hb with ⟨s, hs, hp⟩
      rw [Bool.and_eq_true] at hp
      rcases hp with ⟨hen, hbad⟩
      unfold Engine.update
      rw [updateScenes_error windowSize dt UpdateEvent.sceneUpdate e.scenes 0 ⟨s, hs, hen, hbad⟩]
    · rcases List.any_eq_true.1 hb with ⟨s, hs, hp⟩
      rw [Bool.and_eq_true] at hp
      rcases hp with ⟨hen, hbad⟩
      unfold Engine.update
      cases h3 : updateScenes windowSize dt UpdateEvent.sceneUpdate 0 e.scenes with
      | error msg =>
        rw [updateScenes_error_msg windowSize dt UpdateEvent.sceneUpdate e.scenes 0 msg h3]
      | ok ev3 =>
        rw [updateScenes_error windowSize dt UpdateEvent.scene2dUpdate e.scenes2d 0
          ⟨s, hs, hen, hbad⟩]
  · intro h
    have hgood3 : ∀ s ∈ e.scenes, s.enabled = true → sceneBadTarget s = false := by
      intro s hs hen
      have hp := List.all_eq_true.1 h s (List.mem_append_left _ hs)
      rw [hen] at hp
      simpa using hp
    have hgood2 : ∀ s ∈ e.scenes2d, s.enabled = true → sceneBadTarget s = false := by
      intro s hs hen
      have hp := List.all_eq_true.1 h s (List.mem_append_right _ hs)
      rw [hen] at hp
      simpa using hp
    rcases updateScenes_ok windowSize dt UpdateEvent.sceneUpdate e.scenes 0 hgood3
      with ⟨ev3, h3⟩
    rcases updateScenes_ok windowSize dt UpdateEvent.scene2dUpdate e.scenes2d 0 hgood2
      with ⟨ev2, h2⟩
    refine ⟨UpdateEvent.resourceUpdate dt
        :: (ev3 ++ (ev2 ++ [UpdateEvent.uiUpdate windowSize dt])), ?_, ?_, ?_⟩
    · unfold Engine.update
      rw [h3, h2]
    · intro j s w h2dim hg hen hrt
      rcases updateScenes_complete windowSize dt UpdateEvent.sceneUpdate e.scenes 0 ev3 h3
        j s hg hen with ⟨fs, hfs, hmem⟩
      have hfs2 : frameSizeFor windowSize s = Except.ok ⟨w, h2dim⟩ := by
        unfold frameSizeFor
        rw [hrt]
      rw [hfs2] at hfs
      injection hfs with hfs
      rw [Nat.zero_add] at hmem
      subst hfs
      exact List.mem_cons_of_mem _ (List.mem_append_left _ hmem)
    · intro j s w h2dim hg hen hrt
      rcases updateScenes_complete windowSize dt UpdateEvent.scene2dUpdate e.scenes2d 0 ev2 h2
        j s hg hen with ⟨fs, hfs, hmem⟩
      have hfs2 : frameSizeFor windowSize s = Except.ok ⟨w, h2dim⟩ := by
        unfold frameSizeFor
        rw [hrt]
      rw [hfs2] at hfs
      injection hfs with hfs
      rw [Nat.zero_add] at hmem
      subst hfs
      exact List.mem_cons_of_mem _ (List.mem_append_right _ (List.mem_append_left _ hmem))

/-- Closed instance of `engine_update_render_target_abort`: an enabled 3D
scene with a cube render target makes update abort with the diagnostic,
while a rectangular render target is used as the frame size. -/
theorem engine_update_render_target_abort_witness :
    Engine.update
        { scenes := [{ enabled := true, render_target := some (TextureKind.cube 2 2) }]
          scenes2d := [] } 1 ⟨8, 6⟩
      = Except.error renderTargetPanicMsg
    ∧ ∃ tr, Engine.update
          { scenes := [{ enabled := true, render_target := some (TextureKind.rectangle 4 3) }]
            scenes2d := [] } 1 ⟨8, 6⟩
        = Except.ok tr
      ∧ UpdateEvent.sceneUpdate 0 ⟨4, 3⟩ 1 ∈ tr :=
  ⟨(engine_update_render_target_abort
      { scenes := [{ enabled := true, render_target := some (TextureKind.cube 2 2) }]
        scenes2d := [] } 1 ⟨8, 6⟩).1 (by decide),
    by
      rcases (engine_update_render_target_abort
          { scenes := [{ enabled := true, render_target := some (TextureKind.rectangle 4 3) }]
            scenes2d := [] } 1 ⟨8, 6⟩).2 (by decide) with ⟨tr, htr, hrect, _⟩
      exact ⟨tr, htr, hrect 0 _ 4 3 rfl rfl rfl⟩⟩

/-- One observable step of `impl Visit for Engine`. -/
inductive VisitEvent where
  | enterRegion (name : String)
  | rendererFlush
  | resourceManagerUpdate (dt : Nat)
  | scenesClear
  | scenes2dClear
  | visitField (name : String)
  | reconnectUploadSender
  | reloadResources
  | sceneResolve (ix : Nat)
  | scene2dResolve (ix : Nat)
  | leaveRegion
deriving DecidableEq

/-- The trace of `impl Visit for Engine` on the successful path (every `?`
returning Ok), mirroring the source structure: the region is entered; in
read mode the renderer flush, the zero-dt resource-manager update and both
scene-container clears run before any field; the four named regions are
visited in their fixed order; in read mode the resource manager is then
reconnected to the renderer's upload sender, the blocking full reload runs,
and each 3D scene then each 2D scene of the freshly read containers (of
sizes `numScenes` and `numScenes2d`) is resolved; the region is left. -/
def engineVisitTrace (name : String) (reading : Bool) (numScenes numScenes2d : Nat) :
    List VisitEvent :=
  [VisitEvent.enterRegion name]
  ++ (if reading then
        [VisitEvent.rendererFlush, VisitEvent.resourceManagerUpdate 0,
          VisitEvent.scenesClear, VisitEvent.scenes2dClear]
      else [])
  ++ [VisitEvent.visitField "ResourceManager", VisitEvent.visitField "SoundEngine",
      VisitEvent.visitField "Scenes", VisitEvent.visitField "Scenes2d"]
  ++ (if reading then
        [VisitEvent.reconnectUploadSender, VisitEvent.reloadResources]
        ++ (List.range numScenes).map VisitEvent.sceneResolve
        ++ (List.range numScenes2d).map VisitEvent.scene2dResolve
      else [])
  ++ [VisitEvent.leaveRegion]

/-- C2: in read mode the engine visit trace is exactly: flush, zero-dt
resource-manager update and the two container clears before any field; the
four named regions in the write-mode order (which the write-mode trace
exhibits); then the upload-sender reconnection, the blocking reload, and the
resolve passes, all 3D scenes in index order before all 2D scenes, each
scene resolved exactly once. -/
theorem engine_visit_read_order (name : String) (k k2 : Nat) :
    engineVisitTrace name true k k2
      = [VisitEvent.enterRegion name, VisitEvent.rendererFlush,
          VisitEvent.resourceManagerUpdate 0, VisitEvent.scenesClear,
          VisitEvent.scenes2dClear,
          VisitEvent.visitField "ResourceManager", VisitEvent.visitField "SoundEngine",
          VisitEvent.visitField "Scenes", VisitEvent.visitField "Scenes2d",
          VisitEvent.reconnectUploadSender, VisitEvent.reloadResources]
        ++ (List.range k).map VisitEvent.sceneResolve
        ++ ((List.range k2).map VisitEvent.scene2dResolve
        ++ [VisitEvent.leaveRegion])
    ∧ (∀ i, i < k →
        (engineVisitTrace name true k k2).count (VisitEvent.sceneResolve i) = 1)
    ∧ (∀ i, i < k2 →
        (engineVisitTrace name true k k2).count (VisitEvent.scene2dResolve i) = 1)
    ∧ engineVisitTrace name false k k2
      = [VisitEvent.enterRegion name,
          VisitEvent.visitField "ResourceManager", VisitEvent.visitField "SoundEngine",
          VisitEvent.visitField "Scenes", VisitEvent.visitField "Scenes2d",
          VisitEvent.leaveRegion] := by
  have htrace : engineVisitTrace name true k k2
      = [VisitEvent.enterRegion name, VisitEvent.rendererFlush,
          VisitEvent.resourceManagerUpdate 0, VisitEvent.scenesClear,
          VisitEvent.scenes2dClear,
          VisitEvent.visitField "ResourceManager", VisitEvent.visitField "SoundEngine",
          VisitEvent.visitField "Scenes", VisitEvent.visitField "Scenes2d",
          VisitEvent.reconnectUploadSender, VisitEvent.reloadResources]
        ++ (List.range k).map VisitEvent.sceneResolve
        ++ ((List.range k2).map VisitEvent.scene2dResolve
        ++ [VisitEvent.leaveRegion]) := by
    simp [engineVisitTrace]
  have hinj3 : Function.Injective VisitEvent.sceneResolve := by
    intro a b hab
    injection hab
  have hinj2 : Function.Injective VisitEvent.scene2dResolve := by
    intro a b hab
    injection hab
  refine ⟨htrace, ?_, ?_, by simp [engineVisitTrace]⟩
  · intro i hi
    rw [htrace]
    rw [List.count_append, List.count_append]
    have c1 : List.count (VisitEvent.sceneResolve i)
        [VisitEvent.enterRegion name, VisitEvent.rendererFlush,
          VisitEvent.resourceManagerUpdate 0, VisitEvent.scenesClear,
          VisitEvent.scenes2dClear,
          VisitEvent.visitField "ResourceManager", VisitEvent.visitField "SoundEngine",
          VisitEvent.visitField "Scenes", VisitEvent.visitField "Scenes2d",
          VisitEvent.reconnectUploadSender, VisitEvent.reloadResources] = 0 :=
      List.count_eq_zero_of_not_mem (by simp)
    have c2 : List.count (VisitEvent.sceneResolve i)
        ((List.range k).map VisitEvent.sceneResolve) = 1 := by
      rw [List.count_map_of_injective _ _ hinj3]
      exact List.count_eq_one_of_mem (List.nodup_range _) (List.mem_range.2 hi)
    have c3 : List.count (VisitEvent.sceneResolve i)
        ((List.range k2).map VisitEvent.scene2dResolve ++ [VisitEvent.leaveRegion]) = 0 :=
      List.count_eq_zero_of_not_mem (by simp)
    rw [c1, c2, c3]
  · intro i hi
    rw [htrace]
    rw [List.count_append, List.count_append]
    have c1 : List.count (VisitEvent.scene2dResolve i)
        [VisitEvent.enterRegion name, VisitEvent.rendererFlush,
          VisitEvent.resourceManagerUpdate 0, VisitEvent.scenesClear,
          VisitEvent.scenes2dClear,
          VisitEvent.visitField "ResourceManager", VisitEvent.visitField "SoundEngine",
          VisitEvent.visitField "Scenes", VisitEvent.visitField "Scenes2d",
          VisitEvent.reconnectUploadSender, VisitEvent.reloadResources] = 0 :=
      List.count_eq_zero_of_not_mem (by simp)
    have c2 : List.count (VisitEvent.scene2dResolve i)
        ((List.range k).map VisitEvent.sceneResolve) = 0 :=
      List.count_eq_zero_of_not_mem (by simp)
    have c3 : List.count (VisitEvent.scene2dResolve i)
        ((List.range k2).map VisitEvent.scene2dResolve ++ [VisitEvent.leaveRegion]) = 1 := by
      rw [List.count_append, List.count_map_of_injective _ _ hinj2]
      have c4 : List.count (VisitEvent.scene2dResolve i) [VisitEvent.leaveRegion] = 0 :=
        List.count_eq_zero_of_not_mem (by simp)
      rw [c4, List.count_eq_one_of_mem (List.nodup_range _) (List.mem_range.2 hi)]
    rw [c1, c2, c3]
